import Mathlib

/-!
Shallow embedding of the dependency-tree normalization and query layer of
the `yp` repository (`yp/deps.py`), together with proofs checking the
natural-language specification's claims against it.

Python dicts are modelled as insertion-ordered association lists
(`List (String × α)`) with overwrite-in-place assignment, matching the
insertion-order semantics of Python 3.7+ dicts.  Python sets used by the
traversal are modelled as insertion-ordered duplicate-free lists.
Exceptions are modelled with `Except PyErr`.  Recursive traversals are
modelled with an explicit fuel parameter (structural recursion on the
fuel), so that every definition evaluates by kernel reduction; fuel
sufficiency is proved where the Python recursion terminates.
-/

/-- Errors raised by the Python code, one constructor per raise site. -/
inductive PyErr where
  /-- ValueError: flat_deps and info_by_key must both be provided or both not. -/
  | argsMismatch : PyErr
  /-- ValueError raised by package_dependencies_tree when pipdeptree prints nothing. -/
  | notInstalled (pkg : String) : PyErr
  /-- KeyError from a dict subscript. -/
  | keyError (k : String) : PyErr
  /-- packaging.specifiers.InvalidSpecifier from SpecifierSet(...). -/
  | invalidSpecifier (s : String) : PyErr
  /-- packaging.version.InvalidVersion from parse_version(...). -/
  | invalidVersion (s : String) : PyErr
  /-- ValueError: unknown format. -/
  | unknownFormat (f : String) : PyErr
  /-- StopIteration from next(iter(...)) on an empty specifier set. -/
  | stopIteration : PyErr
deriving DecidableEq

/-- Python dict assignment d[k] = v: overwrite the value at the first
occurrence of k (keeping its position), else append at the end. -/
def insertD {α : Type} (k : String) (v : α) : List (String × α) → List (String × α)
  | [] => [(k, v)]
  | (k', v') :: rest => if k' = k then (k, v) :: rest else (k', v') :: insertD k v rest

/-- Python dict lookup d.get(k): value at the first occurrence of k. -/
def lookupD {α : Type} (k : String) : List (String × α) → Option α
  | [] => none
  | (k', v') :: rest => if k' = k then some v' else lookupD k rest

/-- PackageInfo value stored in info_by_key. -/
structure PkgInfo where
  package_name : String
  installed_version : String
deriving DecidableEq

/-- A dependency entry of a raw pipdeptree record. -/
structure RawDep where
  key : String
  package_name : String
  installed_version : String
  required_version : String
deriving DecidableEq

/-- The "package" part of a raw pipdeptree record. -/
structure RawPackage where
  key : String
  package_name : String
  installed_version : String
deriving DecidableEq

/-- One raw pipdeptree record. -/
structure RawEntry where
  package : RawPackage
  dependencies : List RawDep
deriving DecidableEq

/-- Mapping dep_key → required_version for one package (a Python dict). -/
abbrev DepMap := List (String × String)

/-- Mapping pkg_key → DepMap (the flat_deps adjacency dict). -/
abbrev FlatDeps := List (String × DepMap)

/-- Mapping pkg_key → PkgInfo (the info_by_key dict). -/
abbrev InfoByKey := List (String × PkgInfo)

/-- parse_pipdeptree from yp/deps.py: fold over the records, assigning
info_by_key[key] and flat_deps[key] for each root record. -/
def parse_pipdeptree (data : List RawEntry) : InfoByKey × FlatDeps :=
  data.foldl
    (fun acc entry =>
      let key := entry.package.key
      let info := insertD key
        ⟨entry.package.package_name, entry.package.installed_version⟩ acc.1
      let depsDict := entry.dependencies.foldl
        (fun d dep => insertD dep.key dep.required_version d) []
      (info, insertD key depsDict acc.2))
    ([], [])

/-- flat_deps.get(package_key, {}): the immediate dependency dict of a key. -/
def succs (flat : FlatDeps) (k : String) : DepMap :=
  (lookupD k flat).getD []

/-- Keys of the immediate dependencies of a key. -/
def succKeys (flat : FlatDeps) (k : String) : List String :=
  (succs flat k).map Prod.fst

/-- All dependency keys appearing as an edge target anywhere in flat_deps. -/
def allDepKeys : FlatDeps → List String
  | [] => []
  | e :: rest => e.2.map Prod.fst ++ allDepKeys rest

/-- The finite universe of edge-target keys, used for the fuel bound. -/
def keyUniverse (flat : FlatDeps) : Finset String :=
  (allDepKeys flat).toFinset

/-! ### The collect_deps traversal (lines 244-251 and 307-314 of deps.py)

Python mutates a shared set all_deps; we pass the visited list explicitly.
The fuel only bounds the recursion depth; sufficiency is proved below. -/

/-- collect_deps from package_dependencies: for each immediate dependency
not yet collected, add it and recurse into it.  The visited collection is
an insertion-ordered duplicate-free list standing for the Python set. -/
def collectDeps (flat : FlatDeps) : Nat → List String → String → List String
  | 0, s, _ => s
  | n + 1, s, k =>
      (succs flat k).foldl
        (fun s' p => if p.1 ∈ s' then s' else collectDeps flat n (s' ++ [p.1]) p.1) s

/-- One loop iteration of collect_deps, named for use in lemmas. -/
def collectStep (flat : FlatDeps) (n : Nat) (s : List String) (p : String × String) :
    List String :=
  if p.1 ∈ s then s else collectDeps flat n (s ++ [p.1]) p.1

theorem collectDeps_zero (flat : FlatDeps) (s : List String) (k : String) :
    collectDeps flat 0 s k = s := rfl

theorem collectDeps_succ (flat : FlatDeps) (n : Nat) (s : List String) (k : String) :
    collectDeps flat (n + 1) s k = (succs flat k).foldl (collectStep flat n) s := rfl

/-- The result of collect_deps called at the top level, with provably
sufficient fuel (one more than the number of edge targets in the graph). -/
def packageDepsSet (flat : FlatDeps) (root : String) : List String :=
  collectDeps flat ((allDepKeys flat).length + 1) [] root

/-- Reachability in one or more dependency-edge hops: b is a (possibly
transitive) dependency of a. -/
inductive Reaches (flat : FlatDeps) (a : String) : String → Prop
  | direct {b : String} : b ∈ succKeys flat a → Reaches flat a b
  | tail {b c : String} : Reaches flat a b → c ∈ succKeys flat b → Reaches flat a c

/-! ### Version and specifier semantics

Modelled from the spec: the external packaging library (parse_version and
SpecifierSet, used by package_dependencies) is not part of this
repository's sources, so its behavior is modelled from the spec's section
4.4: a version is a dotted numeric release compared component-wise with
zero padding; a specifier is a comma-separated list of operator+version
clauses all of which must hold; unparseable strings fail with
InvalidSpecifier / InvalidVersion.  Parsing is written over character
lists so that every definition reduces in the kernel. -/

/-- Split a character list at every occurrence of a separator character,
like Python str.split with a one-character separator. -/
def splitOnChar (c : Char) : List Char → List (List Char)
  | [] => [[]]
  | a :: rest =>
      match splitOnChar c rest with
      | [] => [[a]]
      | x :: xs => if a = c then [] :: x :: xs else (a :: x) :: xs

/-- Drop leading space characters. -/
def dropSpaces : List Char → List Char
  | [] => []
  | a :: rest => if a = ' ' then dropSpaces rest else a :: rest

/-- Strip leading and trailing spaces, like str.strip for spaces. -/
def stripChars (l : List Char) : List Char :=
  (dropSpaces ((dropSpaces l.reverse).reverse))

/-- Parse a nonempty all-digit character list as a decimal number. -/
def digitsToNat : List Char → Option Nat
  | [] => none
  | l => if l.all (·.isDigit)
      then some (l.foldl (fun n c => n * 10 + (c.toNat - 48)) 0)
      else none

/-- Parse every dotted segment of a release as a number. -/
def parseRelease : List (List Char) → Option (List Nat)
  | [] => some []
  | seg :: rest =>
      match digitsToNat seg, parseRelease rest with
      | some n, some l => some (n :: l)
      | _, _ => none

/-- Parse an installed-version string as a numeric dotted release. -/
def parseVersionE (s : String) : Except PyErr (List Nat) :=
  match parseRelease (splitOnChar '.' (stripChars s.data)) with
  | some l => .ok l
  | none => .error (.invalidVersion s)

/-- One operator+version clause of a specifier. -/
structure SpecClause where
  operator : String
  version : String
  release : List Nat
deriving DecidableEq

/-- Build a clause from an operator and the remaining version characters;
the version must be a numeric dotted release (for the compatible-release
operator, one of at least two components). -/
def mkClause (orig : String) (op : String) (verChars : List Char) :
    Except PyErr SpecClause :=
  match parseRelease (splitOnChar '.' (stripChars verChars)) with
  | some rel =>
      if op = "~=" ∧ rel.length < 2 then .error (.invalidSpecifier orig)
      else .ok ⟨op, String.mk (stripChars verChars), rel⟩
  | none => .error (.invalidSpecifier orig)

/-- Parse one stripped specifier clause, recognizing the operator prefix. -/
def parseClause (orig : String) (l : List Char) : Except PyErr SpecClause :=
  match l with
  | '=' :: '=' :: '=' :: rest => .ok ⟨"===", String.mk (stripChars rest), []⟩
  | '=' :: '=' :: rest => mkClause orig "==" rest
  | '~' :: '=' :: rest => mkClause orig "~=" rest
  | '!' :: '=' :: rest => mkClause orig "!=" rest
  | '<' :: '=' :: rest => mkClause orig "<=" rest
  | '>' :: '=' :: rest => mkClause orig ">=" rest
  | '<' :: rest => mkClause orig "<" rest
  | '>' :: rest => mkClause orig ">" rest
  | _ => .error (.invalidSpecifier orig)

/-- Parse each clause, failing on the first bad one. -/
def parseClauses (orig : String) : List (List Char) → Except PyErr (List SpecClause)
  | [] => .ok []
  | seg :: rest =>
      match parseClause orig seg with
      | .error e => .error e
      | .ok c =>
          match parseClauses orig rest with
          | .error e => .error e
          | .ok cs => .ok (c :: cs)

/-- SpecifierSet(s): split on commas, strip each piece, drop empty pieces,
parse every remaining clause.  The textual clause order is retained. -/
def parseSpecifierSet (s : String) : Except PyErr (List SpecClause) :=
  parseClauses s (((splitOnChar ',' s.data).map stripChars).filter (· ≠ []))

/-- Pad a release with trailing zeros up to a length. -/
def padZeros (l : List Nat) (n : Nat) : List Nat :=
  l ++ List.replicate (n - l.length) 0

/-- Lexicographic comparison of two equal-length number lists. -/
def lexLe : List Nat → List Nat → Bool
  | [], _ => true
  | _ :: _, [] => true
  | a :: as, b :: bs =>
      if a < b then true
      else if b < a then false
      else lexLe as bs

/-- Pad the shorter release with zeros and compare lexicographically. -/
def releaseLe (a b : List Nat) : Bool :=
  lexLe (padZeros a (max a.length b.length)) (padZeros b (max a.length b.length))

/-- Zero-padded equality of releases. -/
def releaseEq (a b : List Nat) : Bool := releaseLe a b && releaseLe b a

/-- Does an installed version (text and parsed release) satisfy one clause. -/
def clauseContains (c : SpecClause) (instText : String) (inst : List Nat) : Bool :=
  if c.operator = "==" then releaseEq inst c.release
  else if c.operator = "!=" then !(releaseEq inst c.release)
  else if c.operator = "<=" then releaseLe inst c.release
  else if c.operator = ">=" then releaseLe c.release inst
  else if c.operator = "<" then releaseLe inst c.release && !(releaseEq inst c.release)
  else if c.operator = ">" then releaseLe c.release inst && !(releaseEq inst c.release)
  else if c.operator = "~=" then
    releaseLe c.release inst &&
      releaseEq (inst.take (c.release.length - 1)) (c.release.take (c.release.length - 1))
  else instText = c.version

/-- Does an installed version satisfy every clause of a specifier set. -/
def specContains (cs : List SpecClause) (instText : String) (inst : List Nat) : Bool :=
  cs.all (fun c => clauseContains c instText inst)

/-! ### Output formats and the package_dependencies query (deps.py 201-345) -/

/-- One element of the value returned by package_dependencies: a plain
string (names and names_with_req formats), an (name, operator, version)
triple (tuples format), or a details record (include_details=True). -/
inductive OutItem where
  | str (s : String) : OutItem
  | tup (name op ver : String) : OutItem
  | detail (package_name required_version installed_version : String) : OutItem
deriving DecidableEq

/-- Scan flat_deps in insertion order for the first package whose
dependency dict contains dep_key, returning that required_version, else
the empty string (deps.py lines 255-260). -/
def findRequired : FlatDeps → String → String
  | [], _ => ""
  | (_, deps) :: rest, dk =>
      match lookupD dk deps with
      | some r => r
      | none => findRequired rest dk

/-- Process one dependency in details mode (deps.py lines 262-276 and
284-298): look up its info (KeyError when absent), build the record, and
when only problematic versions are requested, keep the record only when
the requirement is nonempty and the installed version fails it. -/
def detailRecord (info : InfoByKey) (onlyProb : Bool) (dep_key req : String) :
    Except PyErr (Option OutItem) :=
  match lookupD dep_key info with
  | none => .error (.keyError dep_key)
  | some pinfo =>
      let installed := pinfo.installed_version
      let record := OutItem.detail pinfo.package_name req installed
      if onlyProb then
        if req ≠ "" then
          match parseSpecifierSet req with
          | .error e => .error e
          | .ok clauses =>
              match parseVersionE installed with
              | .error e => .error e
              | .ok v =>
                  if specContains clauses installed v then .ok none
                  else .ok (some record)
        else .ok none
      else .ok (some record)

/-- The details-mode loop over (dep_key, required_version) pairs; the
first raised exception aborts the whole loop. -/
def detailsLoop (info : InfoByKey) (onlyProb : Bool) :
    List (String × String) → Except PyErr (List OutItem)
  | [] => .ok []
  | (dk, rq) :: rest =>
      match detailRecord info onlyProb dk rq with
      | .error e => .error e
      | .ok none => detailsLoop info onlyProb rest
      | .ok (some r) => (detailsLoop info onlyProb rest).map (r :: ·)

/-- The output loop of the non-details formats (deps.py lines 324-345):
for each (dep_key, req_str) pair look up the display name (KeyError when
absent) and dispatch on the format string; an unknown format raises
ValueError at the first processed item. -/
def formatLoop (info : InfoByKey) (format : String) :
    List (String × String) → Except PyErr (List OutItem)
  | [] => .ok []
  | (dep_key, req_str) :: rest =>
      match lookupD dep_key info with
      | none => .error (.keyError dep_key)
      | some pinfo =>
          let pkg_name := pinfo.package_name
          if format = "names" then
            (formatLoop info format rest).map (OutItem.str pkg_name :: ·)
          else if format = "names_with_req" then
            let item := if req_str ≠ "" then OutItem.str (pkg_name ++ req_str)
                        else OutItem.str pkg_name
            (formatLoop info format rest).map (item :: ·)
          else if format = "tuples" then
            if req_str ≠ "" then
              match parseSpecifierSet req_str with
              | .error e => .error e
              | .ok [] => .error .stopIteration
              | .ok (c :: _) =>
                  (formatLoop info format rest).map
                    (OutItem.tup pkg_name c.operator c.version :: ·)
            else
              (formatLoop info format rest).map (OutItem.tup pkg_name "" "" :: ·)
          else .error (.unknownFormat format)

/-- The dep_items list of the non-details branch: in transitive mode the
code pairs each collected key with flat_deps.get(dep_key, {}).get(dep_key,
"") (deps.py line 316, a lookup of the dependency's dependency on itself);
in immediate mode it is the root's own adjacency items. -/
def depItems (flat : FlatDeps) (package_key : String) (include_transitive : Bool) :
    List (String × String) :=
  if include_transitive then
    (packageDepsSet flat package_key).map
      (fun dk => (dk, (lookupD dk (succs flat dk)).getD ""))
  else succs flat package_key

/-- The body of package_dependencies once flat_deps and info_by_key are in
hand (deps.py lines 238-345). -/
def pdBody (flat : FlatDeps) (info : InfoByKey) (package_key format : String)
    (include_transitive include_details only_include_problematic_versions : Bool) :
    Except PyErr (List OutItem) :=
  if include_details then
    if include_transitive then
      detailsLoop info only_include_problematic_versions
        ((packageDepsSet flat package_key).map (fun dk => (dk, findRequired flat dk)))
    else
      detailsLoop info only_include_problematic_versions (succs flat package_key)
  else
    formatLoop info format (depItems flat package_key include_transitive)

/-- package_dependencies from yp/deps.py.  The env argument stands for the
outcome of the live package_dependencies_tree fetch used when both
snapshot arguments are omitted: none models the not-installed ValueError,
some d a successful fetch of raw records.  Supplying exactly one snapshot
argument raises ValueError before anything else. -/
def package_dependencies (env : Option (List RawEntry)) (package_key : String)
    (format : String) (flat_deps : Option FlatDeps) (info_by_key : Option InfoByKey)
    (include_transitive include_details only_include_problematic_versions : Bool) :
    Except PyErr (List OutItem) :=
  match flat_deps, info_by_key with
  | none, none =>
      match env with
      | none => .error (.notInstalled package_key)
      | some d =>
          let p := parse_pipdeptree d
          pdBody p.2 p.1 package_key format include_transitive include_details
            only_include_problematic_versions
  | some fd, some ik =>
      pdBody fd ik package_key format include_transitive include_details
        only_include_problematic_versions
  | _, _ => .error .argsMismatch

/-! ### build_nested_deps (deps.py lines 179-194) -/

/-- A nested dependency tree: a dict from dep_key to its required_version
and its own nested dependencies. -/
inductive NTree where
  | node : List (String × String × NTree) → NTree

/-- Map a fallible function over a list, as the nested dict comprehension
of build_nested_deps does. -/
def mapO {α β : Type} (f : α → Option β) : List α → Option (List β)
  | [] => some []
  | a :: l =>
      match f a with
      | none => none
      | some b => (mapO f l).map (b :: ·)

/-- build_nested_deps with an explicit recursion-depth fuel: the Python
function recurses into every dependency with no visited-set or path
guard, so a fuel of n models a Python recursion limit of n; none models
exceeding it (Python's RecursionError). -/
def buildNestedFuel (flat : FlatDeps) : Nat → String → Option NTree
  | 0, _ => none
  | n + 1, k =>
      (mapO (fun p => (buildNestedFuel flat n p.1).map (fun t => (p.1, p.2, t)))
        (succs flat k)).map NTree.node

/-! ### Lemmas about the collect_deps traversal -/

theorem lookupD_mem {α : Type} (k : String) (v : α) :
    ∀ (l : List (String × α)), lookupD k l = some v → (k, v) ∈ l
  | [], h => by simp [lookupD] at h
  | (k', v') :: rest, h => by
      by_cases hk : k' = k
      · subst hk
        simp [lookupD] at h
        simp [h]
      · simp [lookupD, hk] at h
        exact List.mem_cons_of_mem _ (lookupD_mem k v rest h)

theorem mem_allDepKeys {k d : String} {deps : DepMap} :
    ∀ {flat : FlatDeps}, (k, deps) ∈ flat → d ∈ deps.map Prod.fst →
      d ∈ allDepKeys flat := by
  intro flat
  induction flat with
  | nil => intro hm; cases hm
  | cons e rest ih =>
      intro hm hd
      rcases List.mem_cons.mp hm with h | h
      · subst h
        exact List.mem_append.mpr (Or.inl hd)
      · exact List.mem_append.mpr (Or.inr (ih h hd))

theorem succs_mem_univ {flat : FlatDeps} {k : String} {p : String × String}
    (hp : p ∈ succs flat k) : p.1 ∈ keyUniverse flat := by
  unfold succs at hp
  cases hl : lookupD k flat with
  | none => rw [hl] at hp; simp at hp
  | some deps =>
      rw [hl] at hp
      simp at hp
      exact List.mem_toFinset.mpr
        (mem_allDepKeys (lookupD_mem k deps flat hl) (List.mem_map_of_mem Prod.fst hp))

theorem collectDeps_mono (flat : FlatDeps) :
    ∀ (n : Nat) (s : List String) (k : String), s ⊆ collectDeps flat n s k := by
  intro n
  induction n with
  | zero => intro s k; rw [collectDeps_zero]; exact fun a ha => ha
  | succ n ih =>
      have aux : ∀ (l : List (String × String)) (s : List String),
          s ⊆ List.foldl (collectStep flat n) s l := by
        intro l
        induction l with
        | nil => intro s; simp
        | cons p rest ihl =>
            intro s
            have h1 : s ⊆ collectStep flat n s p := by
              unfold collectStep
              split
              · exact fun a ha => ha
              · exact fun a ha => ih (s ++ [p.1]) p.1 (List.mem_append.mpr (Or.inl ha))
            exact fun a ha => by
              rw [List.foldl_cons]
              exact ihl (collectStep flat n s p) (h1 ha)
      intro s k
      rw [collectDeps_succ]
      exact aux (succs flat k) s

theorem foldStep_mono (flat : FlatDeps) (n : Nat) :
    ∀ (l : List (String × String)) (s : List String),
      s ⊆ List.foldl (collectStep flat n) s l := by
  intro l
  induction l with
  | nil => intro s; simp
  | cons p rest ihl =>
      intro s
      have h1 : s ⊆ collectStep flat n s p := by
        unfold collectStep
        split
        · exact fun a ha => ha
        · exact fun a ha =>
            collectDeps_mono flat n (s ++ [p.1]) p.1 (List.mem_append.mpr (Or.inl ha))
      exact fun a ha => by
        rw [List.foldl_cons]
        exact ihl (collectStep flat n s p) (h1 ha)

theorem collectDeps_covers (flat : FlatDeps) (n : Nat) :
    ∀ (l : List (String × String)) (s : List String) (p : String × String),
      p ∈ l → p.1 ∈ List.foldl (collectStep flat n) s l := by
  intro l
  induction l with
  | nil => intro s p hp; cases hp
  | cons q rest ihl =>
      intro s p hp
      rcases List.mem_cons.mp hp with h | h
      · subst h
        rw [List.foldl_cons]
        apply foldStep_mono flat n rest
        unfold collectStep
        split
        · assumption
        · exact collectDeps_mono flat n (s ++ [p.1]) p.1
            (List.mem_append.mpr (Or.inr (List.mem_singleton.mpr rfl)))
      · rw [List.foldl_cons]
        exact ihl _ p h

theorem Reaches.trans {flat : FlatDeps} {a b c : String}
    (hab : Reaches flat a b) (hbc : Reaches flat b c) : Reaches flat a c := by
  induction hbc with
  | direct h => exact .tail hab h
  | tail _ hdc ih => exact .tail ih hdc

theorem collectDeps_sound (flat : FlatDeps) :
    ∀ (n : Nat) (s : List String) (k x : String),
      x ∈ collectDeps flat n s k → x ∈ s ∨ Reaches flat k x := by
  intro n
  induction n with
  | zero => intro s k x hx; rw [collectDeps_zero] at hx; exact Or.inl hx
  | succ n ih =>
      have aux : ∀ (l : List (String × String)) (s : List String) (x : String),
          x ∈ List.foldl (collectStep flat n) s l →
          x ∈ s ∨ ∃ p ∈ l, x = p.1 ∨ Reaches flat p.1 x := by
        intro l
        induction l with
        | nil => intro s x hx; exact Or.inl (by simpa using hx)
        | cons p rest ihl =>
            intro s x hx
            rw [List.foldl_cons] at hx
            rcases ihl (collectStep flat n s p) x hx with h | ⟨q, hq, hh⟩
            · unfold collectStep at h
              split at h
              · exact Or.inl h
              · rcases ih (s ++ [p.1]) p.1 x h with h1 | h1
                · rcases List.mem_append.mp h1 with h2 | h2
                  · exact Or.inl h2
                  · exact Or.inr ⟨p, List.mem_cons_self p rest,
                      Or.inl (List.mem_singleton.mp h2)⟩
                · exact Or.inr ⟨p, List.mem_cons_self p rest, Or.inr h1⟩
            · exact Or.inr ⟨q, List.mem_cons_of_mem p hq, hh⟩
      intro s k x hx
      rw [collectDeps_succ] at hx
      rcases aux (succs flat k) s x hx with h | ⟨p, hp, hh⟩
      · exact Or.inl h
      · have hdir : Reaches flat k p.1 :=
          .direct (List.mem_map_of_mem Prod.fst hp)
        rcases hh with h1 | h1
        · exact Or.inr (h1 ▸ hdir)
        · exact Or.inr (hdir.trans h1)

theorem toFinset_append_singleton (s : List String) (a : String) :
    (s ++ [a]).toFinset = insert a s.toFinset := by
  ext x
  simp [or_comm]

theorem card_sdiff_insert_lt {U S : Finset String} {a : String}
    (haU : a ∈ U) (haS : a ∉ S) : (U \ insert a S).card < (U \ S).card := by
  have hsub : U \ insert a S ⊆ U \ S :=
    Finset.sdiff_subset_sdiff (Finset.Subset.refl U) (Finset.subset_insert a S)
  apply Finset.card_lt_card
  rw [Finset.ssubset_iff_of_subset hsub]
  exact ⟨a, Finset.mem_sdiff.mpr ⟨haU, haS⟩,
    fun hmem => (Finset.mem_sdiff.mp hmem).2 (Finset.mem_insert_self a S)⟩

theorem collectDeps_closed (flat : FlatDeps) :
    ∀ (n : Nat) (s : List String) (k : String),
      (keyUniverse flat \ s.toFinset).card < n →
      ∀ x ∈ collectDeps flat n s k, x ∉ s →
        ∀ y ∈ succKeys flat x, y ∈ collectDeps flat n s k := by
  intro n
  induction n with
  | zero => intro s k h; exact absurd h (Nat.not_lt_zero _)
  | succ n ih =>
      have aux : ∀ (l : List (String × String)), (∀ p ∈ l, p.1 ∈ keyUniverse flat) →
          ∀ (s : List String), (keyUniverse flat \ s.toFinset).card ≤ n →
          ∀ x ∈ List.foldl (collectStep flat n) s l, x ∉ s →
          ∀ y ∈ succKeys flat x, y ∈ List.foldl (collectStep flat n) s l := by
        intro l
        induction l with
        | nil =>
            intro _ s _ x hx hxs y _
            exact absurd (by simpa using hx) hxs
        | cons p rest ihl =>
            intro hl s hcard x hx hxs y hy
            rw [List.foldl_cons] at hx ⊢
            by_cases hps : p.1 ∈ s
            · have hstep : collectStep flat n s p = s := by
                unfold collectStep; rw [if_pos hps]
              rw [hstep] at hx ⊢
              exact ihl (fun q hq => hl q (List.mem_cons_of_mem p hq)) s hcard x hx hxs y hy
            · have hstep : collectStep flat n s p = collectDeps flat n (s ++ [p.1]) p.1 := by
                unfold collectStep; rw [if_neg hps]
              rw [hstep] at hx ⊢
              have hpU : p.1 ∈ keyUniverse flat := hl p (List.mem_cons_self p rest)
              have hps' : p.1 ∉ s.toFinset := fun hc => hps (List.mem_toFinset.mp hc)
              have hcard1 : (keyUniverse flat \ (s ++ [p.1]).toFinset).card
                  < (keyUniverse flat \ s.toFinset).card := by
                rw [toFinset_append_singleton]
                exact card_sdiff_insert_lt hpU hps'
              have hcard2 : (keyUniverse flat \ (s ++ [p.1]).toFinset).card < n :=
                Nat.lt_of_lt_of_le hcard1 hcard
              have hmono_sr : (s ++ [p.1]) ⊆ collectDeps flat n (s ++ [p.1]) p.1 :=
                collectDeps_mono flat n _ _
              have hcard_r :
                  (keyUniverse flat \ (collectDeps flat n (s ++ [p.1]) p.1).toFinset).card
                    ≤ n := by
                have hsub : (s ++ [p.1]).toFinset
                    ⊆ (collectDeps flat n (s ++ [p.1]) p.1).toFinset := by
                  intro a ha
                  exact List.mem_toFinset.mpr (hmono_sr (List.mem_toFinset.mp ha))
                have hle := Finset.card_le_card
                  (Finset.sdiff_subset_sdiff (Finset.Subset.refl (keyUniverse flat)) hsub)
                omega
              have hrfinal : collectDeps flat n (s ++ [p.1]) p.1
                  ⊆ List.foldl (collectStep flat n) (collectDeps flat n (s ++ [p.1]) p.1) rest :=
                foldStep_mono flat n rest _
              by_cases hxr : x ∈ collectDeps flat n (s ++ [p.1]) p.1
              · by_cases hx1 : x = p.1
                · subst hx1
                  obtain ⟨m, rfl⟩ : ∃ m, n = m + 1 := ⟨n - 1, by omega⟩
                  apply hrfinal
                  rw [collectDeps_succ]
                  obtain ⟨q, hq, rfl⟩ := List.mem_map.mp hy
                  exact collectDeps_covers flat m (succs flat p.1) _ q hq
                · have hxs1 : x ∉ s ++ [p.1] := by
                    intro hc
                    rcases List.mem_append.mp hc with h2 | h2
                    · exact hxs h2
                    · exact hx1 (List.mem_singleton.mp h2)
                  exact hrfinal (ih (s ++ [p.1]) p.1 hcard2 x hxr hxs1 y hy)
              · exact ihl (fun q hq => hl q (List.mem_cons_of_mem p hq))
                  (collectDeps flat n (s ++ [p.1]) p.1) hcard_r x hx hxr y hy
      intro s k h
      rw [collectDeps_succ]
      exact aux (succs flat k) (fun p hp => succs_mem_univ hp) s (Nat.lt_succ_iff.mp h)

theorem collectDeps_spec (flat : FlatDeps) (root : String) (n : Nat)
    (h : (keyUniverse flat).card < n) (x : String) :
    x ∈ collectDeps flat n [] root ↔ Reaches flat root x := by
  have hcard : (keyUniverse flat \ ([] : List String).toFinset).card < n := by
    simpa using h
  constructor
  · intro hx
    rcases collectDeps_sound flat n [] root x hx with h1 | h1
    · cases h1
    · exact h1
  · intro hr
    induction hr with
    | direct hb =>
        obtain ⟨m, rfl⟩ : ∃ m, n = m + 1 := ⟨n - 1, by omega⟩
        rw [collectDeps_succ]
        obtain ⟨q, hq, rfl⟩ := List.mem_map.mp hb
        exact collectDeps_covers flat m (succs flat root) [] q hq
    | tail _ hbc ih =>
        exact collectDeps_closed flat n [] root hcard _ ih (by simp) _ hbc

/-- The cyclic two-package graph A→B→A used as the concrete cycle input. -/
def cycFlat : FlatDeps := [("a", [("b", "x")]), ("b", [("a", "y")])]

/-- C2: with include_transitive=True, the set collected by the collect_deps
traversal of package_dependencies contains exactly the keys reachable from
the root via one or more dependency edges — so the root itself is excluded
unless it is reachable from itself through a cycle — and every fuel beyond
the proved bound yields the same set, i.e. the traversal terminates on
arbitrary, also cyclic, graphs, because a key already collected is never
re-expanded. -/
theorem c2_collect_deps_computes_reachable_set (flat : FlatDeps) (root : String) (n : Nat)
    (h : (keyUniverse flat).card < n) :
    (∀ x, x ∈ collectDeps flat n [] root ↔ Reaches flat root x) ∧
    (collectDeps flat n [] root).toFinset = (packageDepsSet flat root).toFinset := by
  refine ⟨collectDeps_spec flat root n h, ?_⟩
  have h2 : (keyUniverse flat).card < (allDepKeys flat).length + 1 :=
    Nat.lt_succ_of_le (List.toFinset_card_le _)
  ext x
  simp only [List.mem_toFinset, packageDepsSet, collectDeps_spec flat root n h,
    collectDeps_spec flat root _ h2]

/-- Witness: the characterization applied to the concrete cyclic graph. -/
theorem c2_collect_deps_computes_reachable_set_witness :
    (keyUniverse cycFlat).card < 3 ∧
    ((∀ x, x ∈ collectDeps cycFlat 3 [] "a" ↔ Reaches cycFlat "a" x) ∧
     (collectDeps cycFlat 3 [] "a").toFinset = (packageDepsSet cycFlat "a").toFinset) :=
  ⟨by decide, c2_collect_deps_computes_reachable_set cycFlat "a" 3 (by decide)⟩

/-- C1: build_nested_deps has no cycle guard, so on the cyclic graph
A→B→A it never terminates: for every recursion-depth fuel the fuelled
model exhausts its fuel (Python raises RecursionError instead of
returning a truncated finite tree as the spec requires). -/
theorem c1_build_nested_deps_diverges_on_cycle :
    ∀ n : Nat, buildNestedFuel cycFlat n "a" = none ∧ buildNestedFuel cycFlat n "b" = none := by
  intro n
  induction n with
  | zero => exact ⟨rfl, rfl⟩
  | succ n ih =>
      constructor
      · have hs : succs cycFlat "a" = [("b", "x")] := rfl
        simp only [buildNestedFuel, hs, mapO, ih.2, Option.map_none']
      · have hs : succs cycFlat "b" = [("a", "y")] := rfl
        simp only [buildNestedFuel, hs, mapO, ih.1, Option.map_none']

/-! ### Concrete snapshots used by the claim-level theorems -/

/-- Snapshot: root depends on pkgname with requirement ">=1.0". -/
def flat3 : FlatDeps := [("root", [("pkgname", ">=1.0")])]

/-- Info for flat3: pkgname installed at "1.5". -/
def info3 : InfoByKey := [("root", ⟨"rootname", "1.0"⟩), ("pkgname", ⟨"pkgname", "1.5"⟩)]

/-- Snapshot with one well-formed and one unparseable requirement. -/
def flat5 : FlatDeps := [("r", [("good", ">=1.0"), ("bad", "not-a-spec")])]

/-- Info for flat5. -/
def info5 : InfoByKey :=
  [("r", ⟨"rname", "1.0"⟩), ("good", ⟨"goodname", "1.5"⟩), ("bad", ⟨"badname", "1.0"⟩)]

/-- Snapshot: root depends on p with a two-clause requirement. -/
def flat8 : FlatDeps := [("r", [("p", ">=1.0,<2.0")])]

/-- Info for flat8. -/
def info8 : InfoByKey := [("r", ⟨"rname", "1.0"⟩), ("p", ⟨"pname", "1.5"⟩)]

/-- Snapshot: r depends on a and c through empty-requirement edges, while
a depends on c with requirement ">=2.0". -/
def flat9 : FlatDeps := [("a", [("c", ">=2.0")]), ("r", [("a", ""), ("c", "")])]

/-- Info for flat9: c installed at "1.0", violating ">=2.0". -/
def info9 : InfoByKey :=
  [("a", ⟨"aname", "1.0"⟩), ("c", ⟨"cname", "1.0"⟩), ("r", ⟨"rname", "1.0"⟩)]

/-- A raw record list where key "b" appears only inside a dependencies
list, never as a root record. -/
def data7 : List RawEntry := [⟨⟨"a", "A", "1.0"⟩, [⟨"b", "B", "2.0", ">=1.0"⟩]⟩]

/-- C3: on the snapshot where root depends on pkgname with requirement
">=1.0" and pkgname is installed at "1.5", the default transitive mode
drops the edge requirement (deps.py line 316 reads
flat_deps.get(dep_key, {}).get(dep_key, ""), the dependency's requirement
on itself): names_with_req yields the bare name and tuples the empty
operator/version pair, while details mode with
only_include_problematic_versions=True correctly excludes the dependency
(1.5 satisfies >=1.0); immediate-only mode attaches the edge requirement
exactly as the claim expects, showing the intended behavior lives on the
other path. -/
theorem c3_format_round_trip_eval :
    package_dependencies none "root" "names_with_req" (some flat3) (some info3)
      true false false = .ok [.str "pkgname"] ∧
    package_dependencies none "root" "tuples" (some flat3) (some info3)
      true false false = .ok [.tup "pkgname" "" ""] ∧
    package_dependencies none "root" "names" (some flat3) (some info3)
      true true true = .ok [] ∧
    package_dependencies none "root" "names_with_req" (some flat3) (some info3)
      false false false = .ok [.str "pkgname>=1.0"] ∧
    package_dependencies none "root" "tuples" (some flat3) (some info3)
      false false false = .ok [.tup "pkgname" ">=" "1.0"] :=
  ⟨rfl, rfl, rfl, rfl, rfl⟩

/-- C4 counterexample: with the unrecognized format "bogus" and a root
whose dependency set is empty, the call returns ok [] and raises no
unsupported-format error at all, contradicting the claimed fail-fast
behavior. -/
theorem c4_counterexample :
    package_dependencies none "r" "bogus" (some [("r", [])])
      (some [("r", ⟨"rname", "1.0"⟩)]) true false false = .ok [] := rfl

/-- C4 amended: an unrecognized format raises the unknown-format
ValueError only when the first dependency item is formatted, after the
traversal has already produced the item list: with an empty item list the
call returns ok [], and with a nonempty item list whose first key is
present in info_by_key it fails with unknownFormat. -/
theorem c4_amended_unknown_format_after_traversal
    (flat : FlatDeps) (info : InfoByKey) (env : Option (List RawEntry))
    (pk fmt : String) (it : Bool)
    (h1 : fmt ≠ "names") (h2 : fmt ≠ "names_with_req") (h3 : fmt ≠ "tuples") :
    (depItems flat pk it = [] →
      package_dependencies env pk fmt (some flat) (some info) it false false = .ok []) ∧
    (∀ (dk rq : String) (rest : List (String × String)) (p : PkgInfo),
      depItems flat pk it = (dk, rq) :: rest → lookupD dk info = some p →
      package_dependencies env pk fmt (some flat) (some info) it false false
        = .error (.unknownFormat fmt)) := by
  constructor
  · intro he
    show formatLoop info fmt (depItems flat pk it) = .ok []
    rw [he]
    rfl
  · intro dk rq rest p hitems hp
    show formatLoop info fmt (depItems flat pk it) = .error (.unknownFormat fmt)
    rw [hitems]
    simp only [formatLoop, hp]
    rw [if_neg h1, if_neg h2, if_neg h3]

/-- Witness: the amended unknown-format behavior at a concrete snapshot,
both with a nonempty and with an empty dependency item list. -/
theorem c4_amended_unknown_format_after_traversal_witness :
    package_dependencies none "r" "bogus" (some [("r", [("d", "x")])])
      (some [("d", ⟨"dname", "1.0"⟩)]) false false false
      = .error (.unknownFormat "bogus") ∧
    package_dependencies none "q" "bogus" (some [("r", [("d", "x")])])
      (some [("d", ⟨"dname", "1.0"⟩)]) false false false = .ok [] :=
  ⟨(c4_amended_unknown_format_after_traversal [("r", [("d", "x")])]
      [("d", ⟨"dname", "1.0"⟩)] none "r" "bogus" false
      (by decide) (by decide) (by decide)).2 "d" "x" [] ⟨"dname", "1.0"⟩ rfl rfl,
   (c4_amended_unknown_format_after_traversal [("r", [("d", "x")])]
      [("d", ⟨"dname", "1.0"⟩)] none "q" "bogus" false
      (by decide) (by decide) (by decide)).1 rfl⟩

/-- C5 counterexample: in a transitive details query with
only_include_problematic_versions=True over one well-formed and one
unparseable requirement, the whole call fails with InvalidSpecifier and
the record of the healthy dependency is not returned — no partial-failure
semantics. -/
theorem c5_counterexample :
    package_dependencies none "r" "names" (some flat5) (some info5) true true true
      = .error (.invalidSpecifier "not-a-spec") := rfl

/-- Unfolding equation of detailsLoop at a cons cell. -/
theorem detailsLoop_cons (info : InfoByKey) (oip : Bool) (dk rq : String)
    (rest : List (String × String)) :
    detailsLoop info oip ((dk, rq) :: rest) =
      match detailRecord info oip dk rq with
      | .error e => .error e
      | .ok none => detailsLoop info oip rest
      | .ok (some r) => (detailsLoop info oip rest).map (r :: ·) := rfl

/-- C5 amended: the details-mode loop aborts on the first per-record
parse failure and discards every already-computed success: the loop over
a concatenation is the Except-bind of the loops over the parts, so an
error anywhere yields that error for the entire batch and no partial
results. -/
theorem c5_amended_details_batch_aborts (info : InfoByKey) (oip : Bool)
    (l1 l2 : List (String × String)) :
    detailsLoop info oip (l1 ++ l2) =
      (detailsLoop info oip l1).bind
        (fun r1 => (detailsLoop info oip l2).map (fun r2 => r1 ++ r2)) := by
  induction l1 with
  | nil =>
      show detailsLoop info oip l2 = (Except.ok []).bind _
      cases detailsLoop info oip l2 <;> rfl
  | cons p l1 ih =>
      obtain ⟨dk, rq⟩ := p
      show detailsLoop info oip ((dk, rq) :: (l1 ++ l2))
        = (detailsLoop info oip ((dk, rq) :: l1)).bind _
      rw [detailsLoop_cons info oip dk rq (l1 ++ l2), detailsLoop_cons info oip dk rq l1]
      cases hrec : detailRecord info oip dk rq with
      | error e => rfl
      | ok o =>
          cases o with
          | none => exact ih
          | some r =>
              show (detailsLoop info oip (l1 ++ l2)).map (r :: ·)
                = ((detailsLoop info oip l1).map (r :: ·)).bind _
              rw [ih]
              cases detailsLoop info oip l1 with
              | error e => rfl
              | ok r1 => cases detailsLoop info oip l2 <;> rfl

/-- C6 counterexample: a query root with no entry in the supplied
snapshot returns ok [] silently, with no error of any kind, contrary to
the claimed surfaced UnknownPackageKey error. -/
theorem c6_counterexample :
    package_dependencies none "x" "names" (some []) (some []) true false false
      = .ok [] := rfl

/-- C6 amended: a query root absent from flat_deps silently yields the
empty successful result in every mode and for every format string
(flat_deps.get defaults to an empty dict); a key lookup error is raised
only for a dependency key that is missing from info_by_key while output
records are built. -/
theorem c6_amended_unknown_root_silently_empty
    (flat : FlatDeps) (info : InfoByKey) (env : Option (List RawEntry))
    (pk fmt : String) (it idet oip : Bool)
    (h : lookupD pk flat = none) :
    package_dependencies env pk fmt (some flat) (some info) it idet oip = .ok [] := by
  have hsucc : succs flat pk = [] := by
    simp [succs, h]
  have hset : packageDepsSet flat pk = [] := by
    unfold packageDepsSet
    rw [collectDeps_succ, hsucc]
    rfl
  show pdBody flat info pk fmt it idet oip = .ok []
  cases idet <;> cases it <;>
    simp [pdBody, depItems, hset, hsucc, detailsLoop, formatLoop]

/-- Witness: the amended silent-empty behavior at a concrete snapshot
whose root key is absent. -/
theorem c6_amended_unknown_root_silently_empty_witness :
    package_dependencies none "z" "names" (some [("r", [("d", "x")])])
      (some []) true true true = .ok [] :=
  c6_amended_unknown_root_silently_empty [("r", [("d", "x")])] [] none "z" "names"
    true true true (by decide)

/-- C7 counterexample: on a raw record list where key "b" occurs only
inside a dependencies list, parse_pipdeptree gives "b" no info_by_key
entry at all, so the index is not total over encountered keys. -/
theorem c7_counterexample :
    lookupD "b" (parse_pipdeptree data7).1 = none ∧
    (parse_pipdeptree data7).1 = [("a", ⟨"A", "1.0"⟩)] := ⟨rfl, rfl⟩

/-- The package info of the last raw record whose root key equals k, if
any record has that root key. -/
def lastRootInfo (data : List RawEntry) (k : String) : Option PkgInfo :=
  data.foldl
    (fun acc e =>
      if e.package.key = k
      then some ⟨e.package.package_name, e.package.installed_version⟩
      else acc)
    none

theorem lookupD_insertD {α : Type} (k k' : String) (v : α) :
    ∀ (l : List (String × α)),
      lookupD k (insertD k' v l) = if k' = k then some v else lookupD k l := by
  intro l
  induction l with
  | nil => simp [insertD, lookupD]
  | cons p rest ih =>
      obtain ⟨a, b⟩ := p
      by_cases hak : a = k'
      · subst hak
        simp [insertD, lookupD]
        by_cases hk : a = k
        · simp [hk]
        · simp [hk, lookupD]
      · simp [insertD, hak, lookupD]
        by_cases hk : a = k
        · subst hk
          have : ¬ (k' = a) := fun hc => hak hc.symm
          simp [this, lookupD]
        · simp [hk, ih]

theorem parse_pipdeptree_info_fold (k : String) :
    ∀ (data : List RawEntry) (acc : InfoByKey × FlatDeps),
      lookupD k (data.foldl
        (fun acc entry =>
          let key := entry.package.key
          let info := insertD key
            ⟨entry.package.package_name, entry.package.installed_version⟩ acc.1
          let depsDict := entry.dependencies.foldl
            (fun d dep => insertD dep.key dep.required_version d) []
          (info, insertD key depsDict acc.2)) acc).1
      = data.foldl
          (fun a e =>
            if e.package.key = k
            then some ⟨e.package.package_name, e.package.installed_version⟩
            else a)
          (lookupD k acc.1) := by
  intro data
  induction data with
  | nil => intro acc; rfl
  | cons e rest ih =>
      intro acc
      rw [List.foldl_cons, List.foldl_cons, ih]
      rw [lookupD_insertD]

/-- C7 amended: the info index built by parse_pipdeptree records exactly
the root records: looking up any key returns the
package_name/installed_version of the last raw record having that root
key (later records overwrite earlier ones), and in particular a key has
an entry iff it occurs as some record's own package.key — keys occurring
only inside dependencies lists get no entry. -/
theorem c7_amended_info_index_lists_root_records (data : List RawEntry) (k : String) :
    lookupD k (parse_pipdeptree data).1 = lastRootInfo data k ∧
    ((lookupD k (parse_pipdeptree data).1).isSome ↔ ∃ e ∈ data, e.package.key = k) := by
  have hmain : lookupD k (parse_pipdeptree data).1 = lastRootInfo data k := by
    unfold parse_pipdeptree lastRootInfo
    rw [parse_pipdeptree_info_fold k data ([], [])]
    rfl
  refine ⟨hmain, ?_⟩
  rw [hmain]
  unfold lastRootInfo
  have aux : ∀ (l : List RawEntry) (acc : Option PkgInfo),
      (l.foldl (fun a e =>
        if e.package.key = k
        then some ⟨e.package.package_name, e.package.installed_version⟩
        else a) acc).isSome ↔ acc.isSome ∨ ∃ e ∈ l, e.package.key = k := by
    intro l
    induction l with
    | nil => intro acc; simp
    | cons e rest ih =>
        intro acc
        rw [List.foldl_cons, ih]
        rcases eq_or_ne e.package.key k with hk | hk
        · simp [hk]
        · simp [hk]
  rw [aux data none]
  simp

/-- C8: the code comments at deps.py line 338 promise the first specifier
clause, and parseSpecifierSet keeps the clauses of ">=1.0,<2.0" in
left-to-right textual order with (">=", "1.0") first; yet the default
transitive tuples query returns ("pname", "", "") because line 316 reads
flat_deps.get(dep_key, {}).get(dep_key, "") instead of the edge's
requirement, so no clause of the requirement reaches the tuple at all. -/
theorem c8_tuples_first_clause_eval :
    parseSpecifierSet ">=1.0,<2.0"
      = .ok [⟨">=", "1.0", [1, 0]⟩, ⟨"<", "2.0", [2, 0]⟩] ∧
    package_dependencies none "r" "tuples" (some flat8) (some info8) true false false
      = .ok [.tup "pname" "" ""] := ⟨rfl, rfl⟩

/-- C9 counterexample: the edge r→c carries the empty requirement, yet
the transitive details query with only_include_problematic_versions=True
still returns a record flagging c, because the requirement attached to c
is taken from the first entry of flat_deps referencing c — here a's edge
">=2.0", which c's installed "1.0" violates. -/
theorem c9_counterexample :
    lookupD "c" (succs flat9 "r") = some "" ∧
    package_dependencies none "r" "names" (some flat9) (some info9) true true true
      = .ok [.detail "cname" ">=2.0" "1.0"] := ⟨rfl, rfl⟩

/-- Unfolding equation of formatLoop at a cons cell. -/
theorem formatLoop_cons (info : InfoByKey) (format dep_key req_str : String)
    (rest : List (String × String)) :
    formatLoop info format ((dep_key, req_str) :: rest) =
      match lookupD dep_key info with
      | none => .error (.keyError dep_key)
      | some pinfo =>
          if format = "names" then
            (formatLoop info format rest).map (OutItem.str pinfo.package_name :: ·)
          else if format = "names_with_req" then
            (formatLoop info format rest).map
              ((if req_str ≠ "" then OutItem.str (pinfo.package_name ++ req_str)
                else OutItem.str pinfo.package_name) :: ·)
          else if format = "tuples" then
            if req_str ≠ "" then
              match parseSpecifierSet req_str with
              | .error e => .error e
              | .ok [] => .error .stopIteration
              | .ok (c :: _) =>
                  (formatLoop info format rest).map
                    (OutItem.tup pinfo.package_name c.operator c.version :: ·)
            else
              (formatLoop info format rest).map
                (OutItem.tup pinfo.package_name "" "" :: ·)
          else .error (.unknownFormat format) := rfl

/-- C9 amended: whenever the requirement string attached to a dependency
record is empty, the problematic-versions filter skips the record no
matter what the installed version is (even an unparseable one), and
names_with_req renders the bare package name; but the requirement
attached in transitive details mode is that of the first flat_deps entry
referencing the dependency, which need not be a particular empty edge, so
a dependency that also has a failing non-empty edge can still be flagged
(see the counterexample). -/
theorem c9_amended_empty_attached_requirement_skipped
    (info : InfoByKey) (dk : String) (p : PkgInfo) (rest : List (String × String))
    (h : lookupD dk info = some p) :
    detailsLoop info true ((dk, "") :: rest) = detailsLoop info true rest ∧
    formatLoop info "names_with_req" ((dk, "") :: rest)
      = (formatLoop info "names_with_req" rest).map (OutItem.str p.package_name :: ·) := by
  have hrec : detailRecord info true dk "" = .ok none := by
    unfold detailRecord
    rw [h]
    rfl
  constructor
  · rw [detailsLoop_cons, hrec]
  · rw [formatLoop_cons, h]
    rfl

/-- Witness: the amended empty-requirement behavior at a concrete info
index containing the dependency. -/
theorem c9_amended_empty_attached_requirement_skipped_witness :
    detailsLoop [("d", ⟨"dname", "1.0"⟩)] true [("d", "")]
      = detailsLoop [("d", ⟨"dname", "1.0"⟩)] true [] ∧
    formatLoop [("d", ⟨"dname", "1.0"⟩)] "names_with_req" [("d", "")]
      = (formatLoop [("d", ⟨"dname", "1.0"⟩)] "names_with_req" []).map
          (OutItem.str "dname" :: ·) :=
  c9_amended_empty_attached_requirement_skipped [("d", ⟨"dname", "1.0"⟩)] "d"
    ⟨"dname", "1.0"⟩ [] rfl

/-! ### Lemmas locating each possible error of the query body, for C10 -/

theorem except_map_err {α β : Type} {f : α → β} {x : Except PyErr α} {e : PyErr}
    (h : x.map f = .error e) : x = .error e := by
  cases x with
  | error e' =>
      simp only [Except.map] at h
      injection h with h'
      rw [h']
  | ok a => simp [Except.map] at h

theorem mkClause_err {orig op : String} {v : List Char} {e : PyErr}
    (h : mkClause orig op v = .error e) : e = .invalidSpecifier orig := by
  unfold mkClause at h
  split at h
  · split at h
    · injection h with h'
      exact h'.symm
    · cases h
  · injection h with h'
    exact h'.symm

theorem parseClause_err {orig : String} {l : List Char} {e : PyErr}
    (h : parseClause orig l = .error e) : e = .invalidSpecifier orig := by
  unfold parseClause at h
  split at h
  · cases h
  · exact mkClause_err h
  · exact mkClause_err h
  · exact mkClause_err h
  · exact mkClause_err h
  · exact mkClause_err h
  · exact mkClause_err h
  · exact mkClause_err h
  · injection h with h'
    exact h'.symm

theorem parseClauses_err (orig : String) :
    ∀ (l : List (List Char)) (e : PyErr),
      parseClauses orig l = .error e → e = .invalidSpecifier orig := by
  intro l
  induction l with
  | nil => intro e h; cases h
  | cons seg rest ih =>
      intro e h
      unfold parseClauses at h
      cases hc : parseClause orig seg with
      | error e' =>
          simp only [hc] at h
          injection h with h'
          rw [← h']
          exact parseClause_err hc
      | ok c =>
          simp only [hc] at h
          cases hcs : parseClauses orig rest with
          | error e' =>
              simp only [hcs] at h
              injection h with h'
              rw [← h']
              exact ih e' hcs
          | ok cs =>
              simp only [hcs] at h
              cases h

theorem parseSpecifierSet_err {s : String} {e : PyErr}
    (h : parseSpecifierSet s = .error e) : e = .invalidSpecifier s :=
  parseClauses_err s _ e h

theorem parseVersionE_err {s : String} {e : PyErr}
    (h : parseVersionE s = .error e) : e = .invalidVersion s := by
  unfold parseVersionE at h
  split at h
  · cases h
  · injection h with h'
    exact h'.symm

theorem detailRecord_err {info : InfoByKey} {oip : Bool} {dk rq : String} {e : PyErr}
    (h : detailRecord info oip dk rq = .error e) : e ≠ .argsMismatch := by
  unfold detailRecord at h
  cases hl : lookupD dk info with
  | none =>
      simp only [hl] at h
      injection h with h'
      rw [← h']
      simp
  | some pinfo =>
      simp only [hl] at h
      split at h
      · split at h
        · cases hs : parseSpecifierSet rq with
          | error e' =>
              simp only [hs] at h
              injection h with h'
              rw [← h', parseSpecifierSet_err hs]
              simp
          | ok clauses =>
              simp only [hs] at h
              cases hv : parseVersionE pinfo.installed_version with
              | error e' =>
                  simp only [hv] at h
                  injection h with h'
                  rw [← h', parseVersionE_err hv]
                  simp
              | ok v =>
                  simp only [hv] at h
                  split at h <;> cases h
        · cases h
      · cases h

theorem detailsLoop_ne_args (info : InfoByKey) (oip : Bool) :
    ∀ (l : List (String × String)),
      detailsLoop info oip l ≠ .error .argsMismatch := by
  intro l
  induction l with
  | nil => intro h; cases h
  | cons p rest ih =>
      obtain ⟨dk, rq⟩ := p
      intro h
      rw [detailsLoop_cons] at h
      cases hrec : detailRecord info oip dk rq with
      | error e =>
          simp only [hrec] at h
          injection h with h'
          exact detailRecord_err hrec (h' ▸ rfl)
      | ok o =>
          cases o with
          | none =>
              simp only [hrec] at h
              exact ih h
          | some r =>
              simp only [hrec] at h
              exact ih (except_map_err h)

theorem formatLoop_ne_args (info : InfoByKey) (fmt : String) :
    ∀ (l : List (String × String)),
      formatLoop info fmt l ≠ .error .argsMismatch := by
  intro l
  induction l with
  | nil => intro h; cases h
  | cons p rest ih =>
      obtain ⟨dk, rq⟩ := p
      intro h
      rw [formatLoop_cons] at h
      cases hl : lookupD dk info with
      | none =>
          simp only [hl] at h
          injection h with h'
          cases h'
      | some pinfo =>
          simp only [hl] at h
          split at h
          · exact ih (except_map_err h)
          · split at h
            · exact ih (except_map_err h)
            · split at h
              · split at h
                · cases hs : parseSpecifierSet rq with
                  | error e' =>
                      simp only [hs] at h
                      injection h with h'
                      have := parseSpecifierSet_err hs
                      rw [this] at h'
                      cases h'
                  | ok clauses =>
                      simp only [hs] at h
                      cases clauses with
                      | nil => cases h
                      | cons c cs => exact ih (except_map_err h)
                · exact ih (except_map_err h)
              · injection h with h'
                cases h'

theorem pdBody_ne_args (flat : FlatDeps) (info : InfoByKey) (pk fmt : String)
    (it idet oip : Bool) :
    pdBody flat info pk fmt it idet oip ≠ .error .argsMismatch := by
  unfold pdBody
  split
  · split
    · exact detailsLoop_ne_args info oip _
    · exact detailsLoop_ne_args info oip _
  · exact formatLoop_ne_args info fmt _

/-- C10: the mismatched-snapshot ValueError of package_dependencies is
raised exactly when one of flat_deps and info_by_key is supplied and the
other omitted; when both are supplied, or both omitted, that error never
occurs (the check is the first thing the function does, before any
traversal or formatting). -/
theorem c10_snapshot_args_mismatch_iff
    (env : Option (List RawEntry)) (pk fmt : String)
    (fd : Option FlatDeps) (ik : Option InfoByKey) (it idet oip : Bool) :
    package_dependencies env pk fmt fd ik it idet oip = .error .argsMismatch ↔
      fd.isNone ≠ ik.isNone := by
  cases fd with
  | none =>
      cases ik with
      | none =>
          constructor
          · intro h
            exfalso
            cases env with
            | none => cases h
            | some d =>
                exact pdBody_ne_args (parse_pipdeptree d).2 (parse_pipdeptree d).1
                  pk fmt it idet oip h
          · intro h
            simp at h
      | some ik' =>
          constructor
          · intro _
            simp
          · intro _
            rfl
  | some fd' =>
      cases ik with
      | none =>
          constructor
          · intro _
            simp
          · intro _
            rfl
      | some ik' =>
          constructor
          · intro h
            exact absurd h (pdBody_ne_args fd' ik' pk fmt it idet oip)
          · intro h
            simp at h
